import Mathlib

/-!
Formal model of the context acquisition and caching subsystem of `git-ai`
(`src/context/`): the disk-backed context cache with git-state-aware
invalidation (`cache.rs`), the orchestrator (`mod.rs`), the git, repository,
agent and interaction providers (`providers/`), and the auxiliary file hash
tracker (`file_hash.rs`).

Rust `String`/`&str` values are modeled as lists of characters (`Str`), so
that every operation in the model is executable and kernel-reducible.
External process invocations (`git ...`, `tree`, `cursor-agent`) and the
file system are modeled as explicit environment records holding each
command's outcome; the functions of the source are translated over those
environments statement by statement.
-/

namespace GitAI

/-- Rust strings are modeled as lists of characters. -/
abbrev Str := List Char

/-- Shorthand for writing concrete modeled strings. -/
def str (s : String) : Str := s.toList

/-- ASCII whitespace (space, tab, carriage return, line feed): the fragment of
Rust `char::is_whitespace` exercised by this code base. -/
def isWS (c : Char) : Bool := c = ' ' || c = '\t' || c = '\r' || c = '\n'

/-- Rust `str::trim`: remove leading and trailing whitespace. -/
def strTrim (s : Str) : Str :=
  ((s.dropWhile (fun c => isWS c)).reverse.dropWhile (fun c => isWS c)).reverse

/-- Rust `str::starts_with`. -/
def strStartsWith (s pre : Str) : Bool := pre.isPrefixOf s

/-- Rust `str::ends_with`. -/
def strEndsWith (s suf : Str) : Bool := suf.isSuffixOf s

/-- Rust `str::contains(char)`. -/
def strContains (s : Str) (c : Char) : Bool := s.contains c

/-- Split a string at every character satisfying `p`, keeping empty pieces
(the semantics of Rust `str::split`). -/
def splitOnPred (p : Char → Bool) : Str → List Str
  | [] => [[]]
  | c :: cs =>
    let rest := splitOnPred p cs
    if p c then [] :: rest
    else
      match rest with
      | [] => [[c]]
      | r :: rs => (c :: r) :: rs

/-- Rust `str::split(sep)` for a single separator character. -/
def splitOnChar (sep : Char) (s : Str) : List Str := splitOnPred (fun c => c = sep) s

/-- Rust `str::lines`: split on line feeds, drop the trailing empty piece
produced by a final line feed, and strip a trailing carriage return from each
line. -/
def rustLines (s : Str) : List Str :=
  let ps := splitOnChar '\n' s
  let ps := if ps.getLast? = some [] then ps.dropLast else ps
  ps.map fun l =>
    match l.getLast? with
    | some '\r' => l.dropLast
    | _ => l

/-- Rust `str::split_whitespace`: whitespace-separated fragments, empties
skipped. -/
def splitWS (s : Str) : List Str := (splitOnPred isWS s).filter (fun l => l ≠ [])

/-- Digit run to number; `none` if a non-digit occurs. -/
def digitsToNat (ds : Str) : Option Nat :=
  ds.foldl
    (fun acc c =>
      match acc with
      | none => none
      | some n => if 48 ≤ c.toNat ∧ c.toNat ≤ 57 then some (n * 10 + (c.toNat - 48)) else none)
    (some 0)

/-- Rust `str::parse::<u32>()`: optional leading plus sign, at least one digit,
value within the 32-bit range. -/
def parseU32 (s : Str) : Option Nat :=
  let t := match s with
    | '+' :: rest => rest
    | _ => s
  if t = [] then none
  else
    match digitsToNat t with
    | some n => if n < 4294967296 then some n else none
    | none => none

/-- UTF-8 byte size of one character. -/
def charUtf8Size (c : Char) : Nat :=
  if c.toNat ≤ 0x7F then 1
  else if c.toNat ≤ 0x7FF then 2
  else if c.toNat ≤ 0xFFFF then 3
  else 4

/-- Rust `String::len`: the UTF-8 byte length. -/
def utf8Len (s : Str) : Nat := s.foldl (fun n c => n + charUtf8Size c) 0

/-- Decimal digits of a natural number, via structural fuel (`fuel > n`
suffices, so `natToStr` passes `n + 1`). -/
def natToStrAux : Nat → Nat → Str
  | 0, _ => []
  | _ + 1, n =>
    if n < 10 then [Char.ofNat (48 + n)]
    else natToStrAux n (n / 10) ++ [Char.ofNat (48 + n % 10)]

/-- Decimal rendering of a natural number (Rust `format!("{}", n)` on an
unsigned integer). -/
def natToStr (n : Nat) : Str := natToStrAux (n + 1) n

/-- Lookup in an association list modeling a Rust `HashMap`/`BTreeMap`. -/
def lookupAssoc {β : Type} : List (Str × β) → Str → Option β
  | [], _ => none
  | (k2, v) :: rest, k => if k2 = k then some v else lookupAssoc rest k

/-- Insert into an association list with Rust `HashMap::insert` semantics:
replace the value at the key when present, append otherwise. -/
def insertAssoc {β : Type} : List (Str × β) → Str → β → List (Str × β)
  | [], k, v => [(k, v)]
  | (k2, v2) :: rest, k, v =>
    if k2 = k then (k2, v) :: rest else (k2, v2) :: insertAssoc rest k v

/-! ## Data model (`context/types.rs`) -/

/-- The closed enumeration of fact categories (`ContextType` in `types.rs`). -/
inductive ContextType
  | Git
  | Project
  | Agent
  | Interaction
deriving DecidableEq, Repr

/-- File status entry of a parsed porcelain status line (`FileStatus`). -/
structure FileStatus where
  path : Str
  status : Str
  insertions : Option Nat
  deletions : Option Nat
deriving DecidableEq, Repr

/-- Parsed repository status (`RepositoryStatus`). -/
structure RepositoryStatus where
  staged_files : List FileStatus
  unstaged_files : List FileStatus
  untracked_files : List Str
  is_clean : Bool
  has_conflicts : Bool
deriving DecidableEq, Repr

/-- Staged, unstaged and branch diffs (`GitDiffs`). -/
structure GitDiffs where
  staged : Option Str
  unstaged : Option Str
  branch_diff : Option Str
deriving DecidableEq, Repr

/-- One parsed commit of `git log` output (`CommitInfo`); the timestamp is an
abstract instant. -/
structure CommitInfo where
  hash : Str
  short_hash : Str
  message : Str
  author : Str
  date : Int
  files_changed : List Str
deriving DecidableEq, Repr

/-- Branch tracking information (`BranchInfo`). -/
structure BranchInfo where
  current_branch : Str
  upstream_branch : Option Str
  ahead : Nat
  behind : Nat
  tracking_status : Str
deriving DecidableEq, Repr

/-- Configured git identity (`UserContext`). -/
structure UserContext where
  name : Option Str
  email : Option Str
deriving DecidableEq, Repr

/-- Repository metadata (`RepositoryMetadata`). -/
structure RepositoryMetadata where
  root_path : Str
  git_dir : Str
  is_bare : Bool
  remote_urls : List Str
deriving DecidableEq, Repr

/-- The full git snapshot (`GitContext`). -/
structure GitContext where
  repository_status : RepositoryStatus
  diffs : GitDiffs
  recent_commits : List CommitInfo
  branch_info : BranchInfo
  user_context : UserContext
  repository_metadata : RepositoryMetadata
deriving DecidableEq, Repr

/-- Project structure snapshot (`ProjectContext` in `types.rs`); the maps are
association lists. -/
structure ProjectContext where
  directory_tree : Str
  dependency_files : List (Str × Str)
  file_counts : List (Str × Nat)
  recently_changed_files : List Str
  total_files : Nat
  total_size : Nat
deriving DecidableEq, Repr

/-- Detected configuration file format (`ConfigFormat`). -/
inductive ConfigFormat
  | Json
  | Yaml
  | Toml
  | Text
deriving DecidableEq, Repr

/-- One discovered agent configuration file (`AgentConfigFile`). -/
structure AgentConfigFile where
  path : Str
  content : Str
  format : ConfigFormat
deriving DecidableEq, Repr

/-- Agent configuration snapshot (`AgentContext`). -/
structure AgentContext where
  config_files : List AgentConfigFile
  rules : List Str
  custom_prompts : List (Str × Str)
deriving DecidableEq, Repr

/-- Per-call execution metadata (`ExecutionMetadata`). -/
structure ExecutionMetadata where
  timestamp : Int
  working_directory : Str
  git_ai_version : Str
  cursor_agent_version : Option Str
deriving DecidableEq, Repr

/-- Invocation snapshot (`InteractionContext`). -/
structure InteractionContext where
  command : Str
  user_message : Option Str
  flags : List (Str × Str)
  execution_metadata : ExecutionMetadata
deriving DecidableEq, Repr

/-- Tagged union of snapshots (`ContextData`). -/
inductive ContextData
  | git (g : GitContext)
  | project (p : ProjectContext)
  | agent (a : AgentContext)
  | interaction (i : InteractionContext)
deriving DecidableEq, Repr

/-! ## Cache store (`context/cache.rs`) -/

/-- One persisted cache entry (`CacheEntry` in `cache.rs`); timestamps are
abstract instants, fingerprints are the trimmed commit hash and the digest of
the porcelain status output. -/
structure CacheEntry where
  data : ContextData
  git_commit_hash : Option Str
  working_tree_hash : Option Str
  created_at : Int
  expires_at : Option Int
deriving DecidableEq, Repr

/-- State of one on-disk cache file: absent, present but unreadable
(`fs::read_to_string` fails), present but not valid JSON for a `CacheEntry`
(`serde_json::from_str` fails), or a parsed entry. -/
inductive CacheFile
  | missing
  | unreadable
  | corrupt
  | entry (e : CacheEntry)
deriving DecidableEq, Repr

/-- The error cases `ContextCache::get` can produce: the `with_context`-wrapped
read failure and parse failure. -/
inductive CacheError
  | readFailed
  | parseFailed
deriving DecidableEq, Repr

/-- Live environment of `ContextCache::get_git_hashes`: the current instant,
the `git rev-parse HEAD` result (`none` when the command fails) and the md5
digest of the `git status --porcelain=v1` output (`none` when that command
fails). Both are recomputed on every validity check, so they are inputs
here. -/
structure GitHashEnv where
  now : Int
  commit : Option Str
  workingTree : Option Str
deriving DecidableEq, Repr

/-- Model of `ContextCache::is_cache_valid`: expired entries are invalid, then
either fingerprint differing from the live one invalidates. -/
def is_cache_valid (env : GitHashEnv) (e : CacheEntry) : Bool :=
  if (e.expires_at.elim false fun exp => decide (env.now > exp)) then false
  else if e.git_commit_hash ≠ env.commit then false
  else if e.working_tree_hash ≠ env.workingTree then false
  else true

/-- Model of `ContextCache::get`: absent file reports `none`; a read or parse
failure is propagated via `?` (the file is not touched); a parsed entry is
returned when valid, otherwise the file is removed and `none` reported.
Returns the result together with the new state of the cache file. -/
def cacheGet (env : GitHashEnv) (file : CacheFile) :
    Except CacheError (Option ContextData) × CacheFile :=
  match file with
  | .missing => (Except.ok none, .missing)
  | .unreadable => (Except.error .readFailed, .unreadable)
  | .corrupt => (Except.error .parseFailed, .corrupt)
  | .entry e =>
    if is_cache_valid env e then (Except.ok (some e.data), .entry e)
    else (Except.ok none, .missing)

/-- Model of `ContextCache::get_expiry_time` (seconds): git 5 minutes, project
1 hour, agent 24 hours, interaction never stored with an expiry. -/
def get_expiry_time (t : ContextType) (now : Int) : Option Int :=
  match t with
  | .Git => some (now + 5 * 60)
  | .Project => some (now + 60 * 60)
  | .Agent => some (now + 24 * 60 * 60)
  | .Interaction => none

/-- Model of `ContextCache::store`: build an entry stamped with the live
fingerprints and the per-category expiry, then write it; a failing write
(`writeOk = false`) is propagated as an error and leaves the file unchanged. -/
def cacheStore (env : GitHashEnv) (writeOk : Bool) (t : ContextType) (d : ContextData) :
    Except Str CacheFile :=
  if writeOk then
    Except.ok (.entry ⟨d, env.commit, env.workingTree, env.now, get_expiry_time t env.now⟩)
  else Except.error (str "Failed to write cache file")

/-! ## Context orchestrator (`context/mod.rs`) -/

/-- Environment of one `ContextManager` call: the live fingerprint environment
(shared by `mod.rs::get_git_hashes` and the cache), the outcome of each
registered provider's `gather`, whether the cache file write for each category
would succeed, and the execution metadata the interaction provider would
record for this call. All four providers are registered in
`ContextManager::new`, so provider lookup always succeeds. -/
structure OrchestratorEnv where
  hashes : GitHashEnv
  providerResult : ContextType → Except Str ContextData
  storeOk : ContextType → Bool
  meta : ExecutionMetadata

/-- The on-disk cache, one file per category. -/
def CacheState := ContextType → CacheFile

/-- Replace one category's cache file. -/
def setCache (st : CacheState) (t : ContextType) (f : CacheFile) : CacheState :=
  fun u => if u = t then f else st u

/-- One observable interaction with the cache store. -/
inductive CacheOp
  | get (t : ContextType)
  | store (t : ContextType)
deriving DecidableEq, Repr

/-- The category an operation touches. -/
def CacheOp.target : CacheOp → ContextType
  | .get t => t
  | .store t => t

/-- The errors `gather_context_with_command` can propagate. -/
inductive GatherError
  | cacheRead
  | cacheParse
  | provider (msg : Str)
  | storeFailed
deriving DecidableEq, Repr

/-- Model of the interaction branch of `gather_context_with_command`: a fresh
`InteractionContextProvider` (with the supplied command when present, default
otherwise) whose `gather` always succeeds with empty message and flags and
this call's execution metadata. -/
def interactionGather (meta : ExecutionMetadata) (command : Option Str) : ContextData :=
  .interaction ⟨command.getD (str "unknown"), none, [], meta⟩

/-- Result of `ContextManager::get_or_fetch_context`: the returned value or
error, the cache state after the call, and the cache operations performed. -/
structure FetchResult where
  res : Except GatherError ContextData
  state : CacheState
  trace : List CacheOp

/-- Model of `ContextManager::get_or_fetch_context`: return a cache hit; on a
miss invoke the provider and then `store` the fresh snapshot, propagating with
`?` any error of `get`, of the provider, or of `store`. -/
def get_or_fetch_context (env : OrchestratorEnv) (st : CacheState) (t : ContextType) :
    FetchResult :=
  match cacheGet env.hashes (st t) with
  | (Except.error CacheError.readFailed, f) =>
    ⟨Except.error .cacheRead, setCache st t f, [CacheOp.get t]⟩
  | (Except.error CacheError.parseFailed, f) =>
    ⟨Except.error .cacheParse, setCache st t f, [CacheOp.get t]⟩
  | (Except.ok (some d), f) => ⟨Except.ok d, setCache st t f, [CacheOp.get t]⟩
  | (Except.ok none, f) =>
    let st1 := setCache st t f
    match env.providerResult t with
    | Except.error msg => ⟨Except.error (.provider msg), st1, [CacheOp.get t]⟩
    | Except.ok fresh =>
      match cacheStore env.hashes (env.storeOk t) t fresh with
      | Except.error _ => ⟨Except.error .storeFailed, st1, [CacheOp.get t, CacheOp.store t]⟩
      | Except.ok f2 => ⟨Except.ok fresh, setCache st1 t f2, [CacheOp.get t, CacheOp.store t]⟩

/-- The bundle's context map, a finite map keyed by category (`HashMap` in
`types.rs`), modeled extensionally. -/
def ContextMap := ContextType → Option ContextData

/-- The empty context map. -/
def emptyContexts : ContextMap := fun _ => none

/-- `HashMap::insert` on the context map. -/
def insertContext (m : ContextMap) (t : ContextType) (d : ContextData) : ContextMap :=
  fun u => if u = t then some d else m u

/-- The aggregate bundle (`ContextBundle` in `types.rs`). -/
structure ContextBundle where
  contexts : ContextMap
  generated_at : Int
  git_hash : Option Str
  working_tree_hash : Option Str

/-- Result of a full gather call: the bundle or the first propagated error,
the cache state after the call, and every cache operation performed. -/
structure GatherResult where
  res : Except GatherError ContextBundle
  state : CacheState
  trace : List CacheOp

/-- The per-category loop of `gather_context_with_command`: the interaction
category is served by a fresh interaction provider, bypassing the cache; every
other category goes through `get_or_fetch_context`, whose error aborts the
whole call. -/
def gatherLoop (env : OrchestratorEnv) (command : Option Str) :
    List ContextType → CacheState → ContextMap → List CacheOp →
    Except GatherError ContextMap × CacheState × List CacheOp
  | [], st, acc, tr => (Except.ok acc, st, tr)
  | t :: rest, st, acc, tr =>
    if t = ContextType.Interaction then
      gatherLoop env command rest st (insertContext acc t (interactionGather env.meta command)) tr
    else
      match get_or_fetch_context env st t with
      | ⟨Except.error e, st2, tr2⟩ => (Except.error e, st2, tr ++ tr2)
      | ⟨Except.ok d, st2, tr2⟩ =>
        gatherLoop env command rest st2 (insertContext acc t d) (tr ++ tr2)

/-- Model of `ContextManager::gather_context_with_command`: run the loop, then
populate the bundle with this call's instant and the live fingerprint pair
(`get_git_hashes` in `mod.rs` never fails, so both fields are set). -/
def gather_context_with_command (env : OrchestratorEnv) (st : CacheState)
    (types : List ContextType) (command : Option Str) : GatherResult :=
  match gatherLoop env command types st emptyContexts [] with
  | (Except.error e, st1, tr) => ⟨Except.error e, st1, tr⟩
  | (Except.ok contexts, st1, tr) =>
    ⟨Except.ok
        { contexts := contexts
          generated_at := env.hashes.now
          git_hash := env.hashes.commit
          working_tree_hash := env.hashes.workingTree },
      st1, tr⟩

/-! ## Repository probe (`context/providers/git.rs`) -/

/-- Outcome of one external command: exit status flag plus captured standard
output and standard error (both already decoded; the probe assumes the git
binary is invocable, which is the setting of every claim about it). -/
structure CmdOut where
  success : Bool
  stdout : Str
  stderr : Str
deriving DecidableEq, Repr

/-- Environment of one `GitContextProvider::gather` call: the outcome of every
git query it issues, the working directory fallback, and the timestamp parser
(`DateTime::parse_from_rfc3339`, abstract) with the current instant used as
its fallback. -/
structure GitEnv where
  statusCmd : CmdOut
  numstat : Str → Bool → CmdOut
  diffCached : CmdOut
  diffPlain : CmdOut
  diffRange : Str → CmdOut
  branchExists : Str → Bool
  logCmd : CmdOut
  branchShow : CmdOut
  upstreamCmd : CmdOut
  revListCmd : CmdOut
  configName : CmdOut
  configEmail : CmdOut
  topLevel : CmdOut
  gitDirCmd : CmdOut
  bareCmd : CmdOut
  remoteCmd : CmdOut
  cwd : Str
  parseDate : Str → Option Int
  now : Int

/-- Model of `GitContextProvider::get_file_stats`: run
`git diff --numstat [--cached] -- <file>`, return `(none, none)` on a failed
command, otherwise parse the first line's first two whitespace-separated
fields as u32 counts. Callers swallow its errors with `unwrap_or`. -/
def get_file_stats (env : GitEnv) (file_path : Str) (staged : Bool) :
    Option Nat × Option Nat :=
  let out := env.numstat file_path staged
  if ¬out.success then (none, none)
  else
    match rustLines out.stdout with
    | [] => (none, none)
    | line :: _ =>
      let parts := splitWS line
      if parts.length ≥ 2 then (parseU32 (parts.getD 0 []), parseU32 (parts.getD 1 []))
      else (none, none)

/-- Accumulator of the status-parsing loop in
`GitContextProvider::get_repository_status`. -/
structure StatusAcc where
  staged : List FileStatus
  unstaged : List FileStatus
  untracked : List Str
  conflicts : Bool
deriving DecidableEq, Repr

/-- One iteration of the status-parsing loop: skip lines shorter than three
characters; read the two status columns (defaulting to a blank); flag a
conflict on an unmerged column or a simultaneous add/add or delete/delete;
collect staged, unstaged and untracked entries. -/
def statusStep (env : GitEnv) (acc : StatusAcc) (line : Str) : StatusAcc :=
  if line.length < 3 then acc
  else
    let staged_status := line.getD 0 ' '
    let unstaged_status := line.getD 1 ' '
    let file_path := line.drop 3
    let conflicts :=
      acc.conflicts ||
        (staged_status = 'U' || unstaged_status = 'U' ||
          (staged_status = 'A' && unstaged_status = 'A') ||
          (staged_status = 'D' && unstaged_status = 'D'))
    let staged :=
      if staged_status ≠ ' ' ∧ staged_status ≠ '?' then
        acc.staged ++
          [{ path := file_path
             status := [staged_status]
             insertions := (get_file_stats env file_path true).1
             deletions := (get_file_stats env file_path true).2 }]
      else acc.staged
    let (unstaged, untracked) :=
      if unstaged_status ≠ ' ' then
        if unstaged_status = '?' then (acc.unstaged, acc.untracked ++ [file_path])
        else
          (acc.unstaged ++
            [{ path := file_path
               status := [unstaged_status]
               insertions := (get_file_stats env file_path false).1
               deletions := (get_file_stats env file_path false).2 }],
            acc.untracked)
      else (acc.unstaged, acc.untracked)
    { staged := staged, unstaged := unstaged, untracked := untracked, conflicts := conflicts }

/-- The null-terminated records of `git status --porcelain=v1 -z` output,
empty records dropped. -/
def statusEntries (s : Str) : List Str :=
  (splitOnChar (Char.ofNat 0) s).filter (fun l => l ≠ [])

/-- Close the status-parsing loop's accumulator into a `RepositoryStatus`,
with `is_clean` the conjunction of the three emptiness tests. -/
def finishStatus (fin : StatusAcc) : RepositoryStatus :=
  { staged_files := fin.staged
    unstaged_files := fin.unstaged
    untracked_files := fin.untracked
    is_clean := fin.staged.isEmpty && fin.unstaged.isEmpty && fin.untracked.isEmpty
    has_conflicts := fin.conflicts }

/-- Model of `GitContextProvider::get_repository_status`: fail when the status
command fails, otherwise fold the parsing loop over the records and close the
accumulator. -/
def get_repository_status (env : GitEnv) : Except Str RepositoryStatus :=
  if ¬env.statusCmd.success then
    Except.error (str "git status failed: " ++ env.statusCmd.stderr)
  else
    Except.ok
      (finishStatus
        ((statusEntries env.statusCmd.stdout).foldl (statusStep env) ⟨[], [], [], false⟩))

/-- Model of `GitContextProvider::get_diff` on a range argument. -/
def get_diff_range (env : GitEnv) (range : Str) : Except Str Str :=
  let out := env.diffRange range
  if ¬out.success then Except.error (str "git diff failed: " ++ out.stderr)
  else Except.ok out.stdout

/-- Model of `GitContextProvider::get_upstream_branch`. -/
def get_upstream_branch (env : GitEnv) : Except Str Str :=
  if ¬env.upstreamCmd.success then Except.error (str "No upstream branch configured")
  else Except.ok (strTrim env.upstreamCmd.stdout)

/-- The main/master fallback loop of `GitContextProvider::get_branch_diff`. -/
def branchDiffFallback (env : GitEnv) : List Str → Except Str Str
  | [] => Except.error (str "Could not determine base branch for diff")
  | b :: rest =>
    if env.branchExists b then
      match get_diff_range env (b ++ str "..HEAD") with
      | Except.ok diff => Except.ok diff
      | Except.error _ => branchDiffFallback env rest
    else branchDiffFallback env rest

/-- Model of `GitContextProvider::get_branch_diff`: diff against the upstream
when configured, else against the first of main/master that exists. -/
def get_branch_diff (env : GitEnv) : Except Str Str :=
  match get_upstream_branch env with
  | Except.ok upstream => get_diff_range env (upstream ++ str "..HEAD")
  | Except.error _ => branchDiffFallback env [str "main", str "master"]

/-- Model of `GitContextProvider::get_diffs`: each of the three diffs is taken
best-effort (`.ok()`), so this function itself never fails. -/
def get_diffs (env : GitEnv) : GitDiffs :=
  { staged := if env.diffCached.success then some env.diffCached.stdout else none
    unstaged := if env.diffPlain.success then some env.diffPlain.stdout else none
    branch_diff := (get_branch_diff env).toOption }

/-- One parsed header line of `git log --pretty=format:%H|%h|%s|%an|%ai`
output (exactly five pipe-separated fields). -/
def mkCommit (env : GitEnv) (parts : List Str) : CommitInfo :=
  { hash := parts.getD 0 []
    short_hash := parts.getD 1 []
    message := parts.getD 2 []
    author := parts.getD 3 []
    date := (env.parseDate (parts.getD 4 [])).getD env.now
    files_changed := [] }

/-- The log-parsing loop of `GitContextProvider::get_recent_commits`: a line
with exactly five pipe-separated fields starts a new commit (flushing the
previous one with its accumulated file list); any other non-empty line is a
touched file of the current commit; the last commit is flushed at the end. -/
def parseLogLoop (env : GitEnv) :
    List Str → Option CommitInfo → List Str → List CommitInfo
  | [], current, files =>
    match current with
    | some c => [{ c with files_changed := files }]
    | none => []
  | line :: rest, current, files =>
    if strContains line '|' ∧ (splitOnChar '|' line).length = 5 then
      let flushed :=
        match current with
        | some c => [{ c with files_changed := files }]
        | none => []
      flushed ++ parseLogLoop env rest (some (mkCommit env (splitOnChar '|' line))) []
    else if line ≠ [] then parseLogLoop env rest current (files ++ [line])
    else parseLogLoop env rest current files

/-- Model of `GitContextProvider::get_recent_commits`: fail when `git log`
exits nonzero, otherwise parse its lines. The count only shapes the issued
command. -/
def get_recent_commits (env : GitEnv) (_count : Nat) : Except Str (List CommitInfo) :=
  if ¬env.logCmd.success then
    Except.error (str "git log failed: " ++ env.logCmd.stderr)
  else Except.ok (parseLogLoop env (rustLines env.logCmd.stdout) none [])

/-- Model of `GitContextProvider::get_current_branch`. -/
def get_current_branch (env : GitEnv) : Except Str Str :=
  if ¬env.branchShow.success then
    Except.error (str "Failed to get current branch: " ++ env.branchShow.stderr)
  else Except.ok (strTrim env.branchShow.stdout)

/-- Model of `GitContextProvider::get_ahead_behind_counts`: `(0, 0)` when the
rev-list query fails or does not yield two fields; otherwise the left field is
the behind count and the right field the ahead count, unparsable fields
defaulting to zero. -/
def get_ahead_behind_counts (env : GitEnv) : Nat × Nat :=
  if ¬env.revListCmd.success then (0, 0)
  else
    let parts := splitWS env.revListCmd.stdout
    if parts.length = 2 then
      ((parseU32 (parts.getD 1 [])).getD 0, (parseU32 (parts.getD 0 [])).getD 0)
    else (0, 0)

/-- Model of `GitContextProvider::get_branch_info`: the current branch is
mandatory; upstream, counts and the human-readable tracking summary are
best-effort. -/
def get_branch_info (env : GitEnv) : Except Str BranchInfo :=
  match get_current_branch env with
  | Except.error e => Except.error e
  | Except.ok current =>
    let upstream := (get_upstream_branch env).toOption
    let counts :=
      match upstream with
      | some _ => get_ahead_behind_counts env
      | none => (0, 0)
    let tracking :=
      match upstream, counts.1, counts.2 with
      | none, _, _ => str "No upstream"
      | some _, 0, 0 => str "Up to date"
      | some _, a, 0 => str "Ahead by " ++ natToStr a
      | some _, 0, b => str "Behind by " ++ natToStr b
      | some _, a, b => str "Ahead by " ++ natToStr a ++ str ", behind by " ++ natToStr b
    Except.ok
      { current_branch := current
        upstream_branch := upstream
        ahead := counts.1
        behind := counts.2
        tracking_status := tracking }

/-- Model of `GitContextProvider::get_user_context`: both identity queries are
best-effort. -/
def get_user_context (env : GitEnv) : UserContext :=
  { name := if env.configName.success then some (strTrim env.configName.stdout) else none
    email := if env.configEmail.success then some (strTrim env.configEmail.stdout) else none }

/-- Keep the first occurrence of each element (the `!contains` push loop over
remote URLs). -/
def dedupKeepFirst : List Str → List Str → List Str
  | acc, [] => acc
  | acc, x :: rest =>
    if acc.contains x then dedupKeepFirst acc rest else dedupKeepFirst (acc ++ [x]) rest

/-- Model of `GitContextProvider::get_repository_metadata`: root and git-dir
queries fall back to the working directory and `.git` on a nonzero exit; the
bare flag and remote URLs are best-effort, remotes being the deduplicated
second whitespace-separated field of each `git remote -v` line. -/
def get_repository_metadata (env : GitEnv) : RepositoryMetadata :=
  { root_path := if env.topLevel.success then strTrim env.topLevel.stdout else env.cwd
    git_dir := if env.gitDirCmd.success then strTrim env.gitDirCmd.stdout else str ".git"
    is_bare := env.bareCmd.success && strTrim env.bareCmd.stdout = str "true"
    remote_urls :=
      if env.remoteCmd.success then
        dedupKeepFirst []
          ((rustLines env.remoteCmd.stdout).filterMap fun line => (splitWS line).get? 1)
      else [] }

/-- Model of `GitContextProvider::gather`: status, commits and branch
information propagate their errors with `?`; diffs, user identity and
metadata never fail. -/
def gitGather (env : GitEnv) : Except Str GitContext :=
  match get_repository_status env with
  | Except.error e => Except.error e
  | Except.ok repository_status =>
    let diffs := get_diffs env
    match get_recent_commits env 10 with
    | Except.error e => Except.error e
    | Except.ok recent_commits =>
      match get_branch_info env with
      | Except.error e => Except.error e
      | Except.ok branch_info =>
        Except.ok
          { repository_status := repository_status
            diffs := diffs
            recent_commits := recent_commits
            branch_info := branch_info
            user_context := get_user_context env
            repository_metadata := get_repository_metadata env }

/-! ## Project surveyor (`context/providers/repository.rs`) -/

/-- One entry produced by the ignore-honoring file system walk shared by
`get_dependency_files` and `get_repository_stats`: the rendered path, the file
name component, whether it is a regular file, the `read_to_string` outcome
(`none` when unreadable), and the metadata byte length. -/
structure FsEntry where
  path : Str
  fileName : Str
  isFile : Bool
  content : Option Str
  size : Nat
deriving DecidableEq, Repr

/-- The pattern test of `RepositoryContextProvider::get_dependency_files`: a
pattern with exactly one wildcard splits into a required path prefix and
suffix; any other pattern must equal the file name or be a suffix of the
path. -/
def matchesPattern (path_str file_name pattern : Str) : Bool :=
  if strContains pattern '*' then
    let parts := splitOnChar '*' pattern
    if parts.length = 2 then
      strStartsWith path_str (parts.getD 0 []) && strEndsWith path_str (parts.getD 1 [])
    else file_name = pattern || strEndsWith path_str pattern
  else file_name = pattern || strEndsWith path_str pattern

/-- One iteration of the walk in `get_dependency_files`: skip the `.git`
directory, consider regular files matching some pattern, and record the
content only when it was readable and its byte length is at most the 50 KB
cap — an oversized file is skipped, never truncated. -/
def depFilesStep (patterns : List Str) (m : List (Str × Str)) (e : FsEntry) :
    List (Str × Str) :=
  if strStartsWith e.path (str "./.git") then m
  else if e.isFile then
    if patterns.any (fun pat => matchesPattern e.path e.fileName pat) then
      match e.content with
      | some content => if utf8Len content ≤ 50000 then insertAssoc m e.path content else m
      | none => m
    else m
  else m

/-- Model of `RepositoryContextProvider::get_dependency_files` over the walked
entries. -/
def get_dependency_files (fs : List FsEntry) (patterns : List Str) : List (Str × Str) :=
  fs.foldl (depFilesStep patterns) []

/-- One iteration of the walk in `get_repository_stats`: every regular file
outside `.git` counts once and contributes its metadata length. -/
def statsStep (acc : Nat × Nat) (e : FsEntry) : Nat × Nat :=
  if strStartsWith e.path (str "./.git") then acc
  else if e.isFile then (acc.1 + 1, acc.2 + e.size) else acc

/-- Model of `RepositoryContextProvider::get_repository_stats`: total file
count and total byte size over the walked entries. -/
def get_repository_stats (fs : List FsEntry) : Nat × Nat :=
  fs.foldl statsStep (0, 0)

/-! ## Tool-config scanner (`context/providers/agent.rs`) -/

/-- Structured configuration values, the common shape of `serde_json::Value`
and `serde_yaml::Value` as this code consumes them (mappings are consulted
with string keys only). -/
inductive JValue
  | null
  | bool (b : Bool)
  | num (n : Int)
  | str (s : Str)
  | arr (xs : List JValue)
  | obj (fields : List (Str × JValue))

/-- First field of an object with the given key (`Map::get`; parsed maps have
unique keys). -/
def lookupField : List (Str × JValue) → Str → Option JValue
  | [], _ => none
  | (k, v) :: rest, key => if k = key then some v else lookupField rest key

/-- The fixed key list consulted by the rule extraction. -/
def ruleKeys : List Str :=
  [str "rules", str "instructions", str "prompts", str "guidelines", str "constraints"]

mutual
/-- Model of `extract_rules_from_json` / `extract_rules_from_yaml` (the two
are the same traversal over the shared value model): objects contribute the
extraction of each of the five rule keys in order; arrays push string items
and recurse into the rest; a string is itself a rule. The object case is
phrased through `fieldRulesList`, the structurally recursive form of looking
each key up and recursing on its value. -/
def valueRules : JValue → List Str
  | .null => []
  | .bool _ => []
  | .num _ => []
  | .str s => [s]
  | .arr xs => arrRules xs
  | .obj fields =>
    let keyed := fieldRulesList fields
    ruleKeys.foldr
      (fun key acc =>
        (match lookupAssoc keyed key with
          | some contribution => contribution
          | none => []) ++ acc)
      []

/-- Per-field extraction results of an object, keyed by field name. -/
def fieldRulesList : List (Str × JValue) → List (Str × List Str)
  | [] => []
  | (k, v) :: rest => (k, valueRules v) :: fieldRulesList rest

/-- Array items: strings are pushed directly, anything else is recursed
into. -/
def arrRules : List JValue → List Str
  | [] => []
  | x :: xs =>
    (match x with
      | .str s => [s]
      | v => valueRules v) ++ arrRules xs
end

/-- The plain-text branch of `AgentContextProvider::extract_rules`: each
trimmed line that is non-empty and does not start with the comment marker is
a rule. -/
def textRules (content : Str) : List Str :=
  (rustLines content).foldl
    (fun rules line =>
      let trimmed := strTrim line
      if trimmed ≠ [] ∧ ¬strStartsWith trimmed (str "#") then rules ++ [trimmed] else rules)
    []

/-- Strip every leading and trailing occurrence of a character
(`str::trim_matches`). -/
def charTrimMatches (c : Char) (s : Str) : Str :=
  ((s.dropWhile (fun x => x = c)).reverse.dropWhile (fun x => x = c)).reverse

/-- The TOML branch of `AgentContextProvider::extract_rules`: lines starting
with `rule` and containing an equals sign contribute the quoted-stripped
right-hand side when non-empty. -/
def tomlRules (content : Str) : List Str :=
  (rustLines content).foldl
    (fun rules line =>
      let trimmed := strTrim line
      if strStartsWith trimmed (str "rule") ∧ strContains trimmed '=' then
        match (splitOnChar '=' trimmed).get? 1 with
        | some rhs =>
          let cleaned := charTrimMatches '\'' (charTrimMatches '"' (strTrim rhs))
          if cleaned ≠ [] then rules ++ [cleaned] else rules
        | none => rules
      else rules)
    []

/-- Per-file rule extraction of `AgentContextProvider::extract_rules`,
dispatching on the detected format; the structured-format parsers
(`serde_json::from_str`, `serde_yaml::from_str`) are supplied by the
environment, and a file that fails to parse contributes nothing. -/
def fileRules (parseJson parseYaml : Str → Option JValue) (f : AgentConfigFile) : List Str :=
  match f.format with
  | .Json =>
    match parseJson f.content with
    | some v => valueRules v
    | none => []
  | .Yaml =>
    match parseYaml f.content with
    | some v => valueRules v
    | none => []
  | .Text => textRules f.content
  | .Toml => tomlRules f.content

/-- Model of `AgentContextProvider::extract_rules`: rules accumulated over the
discovered files in order. -/
def extract_rules (parseJson parseYaml : Str → Option JValue)
    (config_files : List AgentConfigFile) : List Str :=
  config_files.foldl (fun rules f => rules ++ fileRules parseJson parseYaml f) []

/-! ## File hash tracker (`context/file_hash.rs`) -/

/-- Environment of the tracker: the file system (path to content, `none` when
the file does not exist; an existing file is readable) and the digest function
(`md5::compute` rendered in hex) with the current instant. -/
structure HashEnv where
  contents : Str → Option Str
  digest : Str → Str
  now : Int

/-- The persisted hash store (`FileHashMap`). -/
structure FileHashMap where
  hashes : List (Str × Str)
  last_updated : Int
deriving DecidableEq, Repr

/-- Model of `FileHashTracker::files_changed`: a tracked path whose file
vanished is a change; an untracked existing file is a change; an existing
tracked file is a change exactly when its current digest differs from the
stored one; otherwise continue with the remaining paths. -/
def files_changed (env : HashEnv) (stored : List (Str × Str)) : List Str → Bool
  | [] => false
  | p :: rest =>
    match env.contents p with
    | none =>
      if (lookupAssoc stored p).isSome then true else files_changed env stored rest
    | some c =>
      let current := env.digest c
      match lookupAssoc stored p with
      | some storedHash => if current ≠ storedHash then true else files_changed env stored rest
      | none => true

/-- Model of `FileHashTracker::update_file_hashes`: record the digest of every
existing path and stamp the update instant. -/
def update_file_hashes (env : HashEnv) (m : FileHashMap) (paths : List Str) : FileHashMap :=
  { hashes :=
      paths.foldl
        (fun hs p =>
          match env.contents p with
          | some c => insertAssoc hs p (env.digest c)
          | none => hs)
        m.hashes
    last_updated := env.now }

/-! ## Spec-side predicates and concrete fixtures -/

/-- The conflict condition on one parsed status line as the specification
states it: either status column is the unmerged code, or both columns are
simultaneously added, or both simultaneously deleted. Stated over the two
column characters (defaulting to a blank) for comparison with the parsing
loop of the source. -/
def conflictLineSpec (line : Str) : Bool :=
  line.getD 0 ' ' = 'U' || line.getD 1 ' ' = 'U' ||
    (line.getD 0 ' ' = 'A' && line.getD 1 ' ' = 'A') ||
    (line.getD 0 ' ' = 'D' && line.getD 1 ' ' = 'D')

/-- A minimal snapshot payload used by concrete counterexamples and
witnesses. -/
def sampleData : ContextData := .agent ⟨[], [], []⟩

/-- Concrete execution metadata for counterexamples and witnesses. -/
def sampleMeta : ExecutionMetadata := ⟨0, str "/repo", str "0.1.0", none⟩

/-- A cache entry whose expiry instant is exactly 100. -/
def entryAtBoundary : CacheEntry :=
  ⟨sampleData, some (str "abc123"), some (str "d1"), 0, some 100⟩

/-- A live environment whose current instant is exactly the entry's expiry
instant, with matching fingerprints. -/
def envAtBoundary : GitHashEnv := ⟨100, some (str "abc123"), some (str "d1")⟩

/-- An orchestrator environment in which every provider succeeds with the
sample snapshot but every cache file write fails. -/
def storeFailEnv : OrchestratorEnv :=
  { hashes := ⟨0, none, none⟩
    providerResult := fun _ => Except.ok sampleData
    storeOk := fun _ => false
    meta := sampleMeta }

/-- An orchestrator environment in which every provider succeeds and every
store succeeds, over an empty cache. -/
def plainEnv : OrchestratorEnv :=
  { hashes := ⟨0, none, none⟩
    providerResult := fun _ => Except.ok sampleData
    storeOk := fun _ => true
    meta := sampleMeta }

/-- The empty on-disk cache. -/
def emptyCache : CacheState := fun _ => CacheFile.missing

/-- The git environment of a repository with zero commits: status, branch and
metadata queries succeed (the branch query reports `main`), while `git log`
exits nonzero with its characteristic fatal message, and no upstream is
configured. -/
def zeroCommitEnv : GitEnv :=
  { statusCmd := ⟨true, [], []⟩
    numstat := fun _ _ => ⟨false, [], []⟩
    diffCached := ⟨true, [], []⟩
    diffPlain := ⟨true, [], []⟩
    diffRange := fun _ => ⟨false, [], []⟩
    branchExists := fun _ => false
    logCmd := ⟨false, [], str "fatal: your current branch does not have any commits yet"⟩
    branchShow := ⟨true, str "main\n", []⟩
    upstreamCmd := ⟨false, [], []⟩
    revListCmd := ⟨false, [], []⟩
    configName := ⟨true, str "Ada\n", []⟩
    configEmail := ⟨true, str "ada@example.com\n", []⟩
    topLevel := ⟨true, str "/repo\n", []⟩
    gitDirCmd := ⟨true, str ".git\n", []⟩
    bareCmd := ⟨true, str "false\n", []⟩
    remoteCmd := ⟨true, [], []⟩
    cwd := str "/repo"
    parseDate := fun _ => none
    now := 0 }

/-- A git environment whose status output is a single both-columns-unmerged
record. -/
def conflictEnv : GitEnv :=
  { zeroCommitEnv with
    statusCmd := ⟨true, str "UU conflict.txt\x00", []⟩
    logCmd := ⟨true, [], []⟩ }

/-- The repository status the probe produces for `conflictEnv`. -/
def conflictStatusDemo : RepositoryStatus :=
  { staged_files := [⟨str "conflict.txt", ['U'], none, none⟩]
    unstaged_files := [⟨str "conflict.txt", ['U'], none, none⟩]
    untracked_files := []
    is_clean := false
    has_conflicts := true }

/-! ## Theorems

Claim-level results, preceded by the helper lemmas they share. -/

/-- Validity of a parsed cache entry, unfolded into the fingerprint equalities
and the expiry comparison: note the comparison the source performs is
`now > expires_at` for invalidation, so validity requires only `now ≤
expires_at`. -/
theorem is_cache_valid_iff (env : GitHashEnv) (e : CacheEntry) :
    is_cache_valid env e = true ↔
      (e.git_commit_hash = env.commit ∧ e.working_tree_hash = env.workingTree ∧
        ∀ exp, e.expires_at = some exp → env.now ≤ exp) := by
  unfold is_cache_valid
  cases hexp : e.expires_at with
  | none =>
    simp only [Option.elim, if_false, Bool.false_eq_true, hexp]
    split_ifs with h1 h2 <;> simp_all
  | some exp =>
    simp only [Option.elim, hexp]
    split_ifs with h0 h1 h2 <;> simp_all

/-- C1 counterexample: on a persisted entry whose contents fail to parse,
`ContextCache::get` does not delete the file and does not report absent; it
propagates the parse failure to its caller (and likewise a read failure), so
the claim as stated is false. -/
theorem cache_get_parse_error_propagates_cex :
    cacheGet ⟨0, none, none⟩ CacheFile.corrupt =
        (Except.error CacheError.parseFailed, CacheFile.corrupt) ∧
      cacheGet ⟨0, none, none⟩ CacheFile.unreadable =
        (Except.error CacheError.readFailed, CacheFile.unreadable) := ⟨rfl, rfl⟩

/-- C1 (amended): `ContextCache::get` propagates a read failure or a parse
failure of the cached file as an error to its caller and leaves the file in
place; the delete-and-report-absent behavior applies only to entries that
parse successfully but fail validation. -/
theorem cache_get_self_healing_amended (env : GitHashEnv) :
    cacheGet env CacheFile.corrupt = (Except.error CacheError.parseFailed, CacheFile.corrupt) ∧
      cacheGet env CacheFile.unreadable =
        (Except.error CacheError.readFailed, CacheFile.unreadable) ∧
      ∀ e : CacheEntry, is_cache_valid env e = false →
        cacheGet env (CacheFile.entry e) = (Except.ok none, CacheFile.missing) := by
  refine ⟨rfl, rfl, fun e he => ?_⟩
  simp [cacheGet, he]

/-- C1 witness: the amended claim applied to a concrete expired entry. -/
theorem cache_get_self_healing_amended_witness :
    cacheGet ⟨0, none, none⟩ (CacheFile.entry ⟨sampleData, none, none, 0, some (-1)⟩) =
      (Except.ok none, CacheFile.missing) := by
  have h := cache_get_self_healing_amended ⟨0, none, none⟩
  exact h.2.2 ⟨sampleData, none, none, 0, some (-1)⟩ (by decide)

/-- C2 counterexample: at the instant exactly equal to `expires_at`, with both
fingerprints matching, `ContextCache::get` returns the stored snapshot even
though the current time is not before `expires_at`, so the claimed
characterization (which requires strictly-before) is false at this input. -/
theorem cache_validity_expiry_boundary_cex :
    cacheGet envAtBoundary (CacheFile.entry entryAtBoundary) =
        (Except.ok (some sampleData), CacheFile.entry entryAtBoundary) ∧
      entryAtBoundary.expires_at = some 100 ∧
      envAtBoundary.now = 100 ∧
      ¬envAtBoundary.now < 100 := ⟨rfl, rfl, rfl, by decide⟩

/-- C2 (amended): for a parsed cache entry, `get` returns the stored snapshot
exactly when the stored commit fingerprint equals the live one, the stored
working-tree fingerprint equals the live one, and, when `expires_at` is set,
the current time is at or before it (the entry is still valid at the exact
expiry instant); when any of these fails, `get` deletes the entry's file and
reports absent. -/
theorem cache_get_validity_amended (env : GitHashEnv) (e : CacheEntry) :
    ((e.git_commit_hash = env.commit ∧ e.working_tree_hash = env.workingTree ∧
        ∀ exp, e.expires_at = some exp → env.now ≤ exp) →
      cacheGet env (CacheFile.entry e) = (Except.ok (some e.data), CacheFile.entry e)) ∧
    ((¬(e.git_commit_hash = env.commit ∧ e.working_tree_hash = env.workingTree ∧
        ∀ exp, e.expires_at = some exp → env.now ≤ exp)) →
      cacheGet env (CacheFile.entry e) = (Except.ok none, CacheFile.missing)) := by
  constructor
  · intro hC
    simp [cacheGet, (is_cache_valid_iff env e).mpr hC]
  · intro hC
    have hv : is_cache_valid env e = false := by
      cases hvb : is_cache_valid env e with
      | false => rfl
      | true => exact absurd ((is_cache_valid_iff env e).mp hvb) hC
    simp [cacheGet, hv]

/-- C2 witness: the amended claim applied to a matching entry at the expiry
boundary (snapshot returned) and to an entry whose commit fingerprint differs
from the live one (file deleted, absent reported). -/
theorem cache_get_validity_amended_witness :
    cacheGet envAtBoundary (CacheFile.entry entryAtBoundary) =
        (Except.ok (some sampleData), CacheFile.entry entryAtBoundary) ∧
      cacheGet ⟨0, none, none⟩ (CacheFile.entry entryAtBoundary) =
        (Except.ok none, CacheFile.missing) := by
  have h1 := cache_get_validity_amended envAtBoundary entryAtBoundary
  have h2 := cache_get_validity_amended ⟨0, none, none⟩ entryAtBoundary
  refine ⟨h1.1 ⟨rfl, rfl, ?_⟩, h2.2 ?_⟩
  · intro exp hx
    rw [show entryAtBoundary.expires_at = some 100 from rfl] at hx
    cases hx
    decide
  · intro hC
    exact absurd hC.1 (by decide)

/-- C3 counterexample: with an empty cache, a succeeding provider and a
failing cache write, the gather call returns the store error instead of the
freshly computed snapshot, so the claim as stated is false. -/
theorem gather_store_failure_cex :
    (gather_context_with_command storeFailEnv emptyCache [ContextType.Git] none).res =
      Except.error GatherError.storeFailed := rfl

/-- C3 (amended): on a cache miss with a succeeding provider, the orchestrator
returns the freshly computed snapshot only when the subsequent cache store
succeeds; a store failure is propagated by `?` and makes the gather call
return an error. -/
theorem gather_store_failure_propagates (env : OrchestratorEnv) (st : CacheState)
    (t : ContextType) (d : ContextData) (command : Option Str)
    (ht : t ≠ ContextType.Interaction)
    (hmiss : (cacheGet env.hashes (st t)).1 = Except.ok none)
    (hprov : env.providerResult t = Except.ok d) :
    (gather_context_with_command env st [t] command).res =
      if env.storeOk t then
        Except.ok
          { contexts := insertContext emptyContexts t d
            generated_at := env.hashes.now
            git_hash := env.hashes.commit
            working_tree_hash := env.hashes.workingTree }
      else Except.error GatherError.storeFailed := by
  rcases hcg : cacheGet env.hashes (st t) with ⟨r, f⟩
  rw [hcg] at hmiss
  simp only at hmiss
  subst hmiss
  cases hstore : env.storeOk t with
  | true =>
    simp [gather_context_with_command, gatherLoop, ht, get_or_fetch_context, hcg, hprov,
      cacheStore, hstore]
  | false =>
    simp [gather_context_with_command, gatherLoop, ht, get_or_fetch_context, hcg, hprov,
      cacheStore, hstore]

/-- C3 witness: the amended claim applied to a succeeding store, yielding the
fresh snapshot. -/
theorem gather_store_failure_propagates_witness :
    (gather_context_with_command plainEnv emptyCache [ContextType.Git] none).res =
      Except.ok
        { contexts := insertContext emptyContexts ContextType.Git sampleData
          generated_at := 0
          git_hash := none
          working_tree_hash := none } := by
  have h :=
    gather_store_failure_propagates plainEnv emptyCache ContextType.Git sampleData none
      (by decide) rfl rfl
  simpa using h

/-- Every cache operation `get_or_fetch_context` performs targets exactly the
category it was asked for. -/
theorem fetch_trace_shape (env : OrchestratorEnv) (st : CacheState) (t : ContextType) :
    (get_or_fetch_context env st t).trace = [CacheOp.get t] ∨
      (get_or_fetch_context env st t).trace = [CacheOp.get t, CacheOp.store t] := by
  unfold get_or_fetch_context
  rcases cacheGet env.hashes (st t) with ⟨(_ | _) | (_ | d), f⟩
  · simp
  · simp
  · rcases env.providerResult t with msg | fresh
    · simp
    · cases hb : env.storeOk t <;> simp [cacheStore, hb]
  · simp

/-- The operation targets of one fetch are the requested category. -/
theorem fetch_trace_target (env : OrchestratorEnv) (st : CacheState) (t : ContextType) :
    ∀ op ∈ (get_or_fetch_context env st t).trace, op.target = t := by
  intro op hop
  rcases fetch_trace_shape env st t with h | h
  · rw [h] at hop; simp at hop; subst hop; rfl
  · rw [h] at hop; simp at hop; rcases hop with rfl | rfl <;> rfl

/-- Invariant of the gather loop: no cache operation ever targets the
interaction category. -/
theorem gatherLoop_trace (env : OrchestratorEnv) (command : Option Str) :
    ∀ (types : List ContextType) (st : CacheState) (acc : ContextMap) (tr : List CacheOp),
      (∀ op ∈ tr, op.target ≠ ContextType.Interaction) →
      ∀ op ∈ (gatherLoop env command types st acc tr).2.2,
        op.target ≠ ContextType.Interaction := by
  intro types
  induction types with
  | nil => intro st acc tr htr; simpa [gatherLoop] using htr
  | cons t rest ih =>
    intro st acc tr htr op hop
    by_cases hti : t = ContextType.Interaction
    · subst hti
      rw [gatherLoop, if_pos rfl] at hop
      exact ih st _ tr htr op hop
    · rcases hgf : get_or_fetch_context env st t with ⟨r, st2, tr2⟩
      have htr2 : ∀ op2 ∈ tr ++ tr2, op2.target ≠ ContextType.Interaction := by
        intro op2 hop2
        rcases List.mem_append.mp hop2 with h2 | h2
        · exact htr op2 h2
        · have h3 := fetch_trace_target env st t op2 (by rw [hgf]; exact h2)
          rw [h3]; exact hti
      rw [gatherLoop, if_neg hti, hgf] at hop
      rcases r with e | d
      · exact htr2 op hop
      · exact ih _ _ _ htr2 op hop

/-- Invariant of the gather loop: on success, the interaction slot of the
produced context map holds this call's freshly generated invocation snapshot
whenever the interaction category was requested (or was already fresh in the
accumulator). -/
theorem gatherLoop_interaction_lookup (env : OrchestratorEnv) (command : Option Str) :
    ∀ (types : List ContextType) (st : CacheState) (acc : ContextMap) (tr : List CacheOp)
      (ctxs : ContextMap) (st1 : CacheState) (tr1 : List CacheOp),
      gatherLoop env command types st acc tr = (Except.ok ctxs, st1, tr1) →
      (ContextType.Interaction ∈ types ∨
        acc ContextType.Interaction = some (interactionGather env.meta command)) →
      ctxs ContextType.Interaction = some (interactionGather env.meta command) := by
  intro types
  induction types with
  | nil =>
    intro st acc tr ctxs st1 tr1 heq hmem
    simp [gatherLoop] at heq
    rcases hmem with h | h
    · simp at h
    · rw [← heq.1]; exact h
  | cons t rest ih =>
    intro st acc tr ctxs st1 tr1 heq hmem
    by_cases hti : t = ContextType.Interaction
    · subst hti
      rw [gatherLoop, if_pos rfl] at heq
      refine ih _ _ _ _ _ _ heq (Or.inr ?_)
      simp [insertContext]
    · rcases hgf : get_or_fetch_context env st t with ⟨r, st2, tr2⟩
      rw [gatherLoop, if_neg hti, hgf] at heq
      rcases r with e | d
      · simp at heq
      · refine ih _ _ _ _ _ _ heq ?_
        rcases hmem with h | h
        · rcases List.mem_cons.mp h with h1 | h1
          · exact absurd h1.symm hti
          · exact Or.inl h1
        · refine Or.inr ?_
          rw [show insertContext acc t d ContextType.Interaction = acc ContextType.Interaction
            from if_neg (fun hx => hti hx.symm)]
          exact h

/-- C4: the orchestrator never consults the cache store for the interaction
category — no operation of any gather call's cache trace targets it — and a
successful gather whose requested categories include interaction maps it to
the invocation snapshot freshly generated from this call's metadata and
command, never to a cached value; hence each of two sequential gather calls
produces its own fresh invocation snapshot. -/
theorem gather_interaction_bypasses_cache (env : OrchestratorEnv) (st : CacheState)
    (types : List ContextType) (command : Option Str) :
    (∀ op ∈ (gather_context_with_command env st types command).trace,
        op.target ≠ ContextType.Interaction) ∧
    (∀ bundle, (gather_context_with_command env st types command).res = Except.ok bundle →
      ContextType.Interaction ∈ types →
      bundle.contexts ContextType.Interaction = some (interactionGather env.meta command)) := by
  constructor
  · intro op hop
    unfold gather_context_with_command at hop
    rcases hgl : gatherLoop env command types st emptyContexts [] with ⟨res, st1, tr⟩
    have htr := gatherLoop_trace env command types st emptyContexts [] (by simp)
    rw [hgl] at hop htr
    rcases res with e | ctxs <;> simp at hop <;> exact htr op hop
  · intro bundle hres hmem
    unfold gather_context_with_command at hres
    rcases hgl : gatherLoop env command types st emptyContexts [] with ⟨res, st1, tr⟩
    rw [hgl] at hres
    rcases res with e | ctxs
    · simp at hres
    · simp at hres
      have hlk :=
        gatherLoop_interaction_lookup env command types st emptyContexts [] ctxs st1 tr hgl
          (Or.inl hmem)
      rw [← hres]
      exact hlk

/-- C4 witness: a gather call requesting only the interaction category yields
the freshly generated invocation snapshot. -/
theorem gather_interaction_bypasses_cache_witness :
    ({ contexts :=
          insertContext emptyContexts ContextType.Interaction (interactionGather sampleMeta none)
       generated_at := 0
       git_hash := none
       working_tree_hash := none } : ContextBundle).contexts ContextType.Interaction =
      some (interactionGather plainEnv.meta none) := by
  have h :=
    gather_interaction_bypasses_cache plainEnv emptyCache [ContextType.Interaction] none
  exact h.2 _ rfl (by simp)

/-- The conflict flag accumulated by the status-parsing loop is the
disjunction over the parseable records of the conflict condition. -/
theorem statusFold_conflicts (env : GitEnv) :
    ∀ (l : List Str) (acc : StatusAcc),
      (l.foldl (statusStep env) acc).conflicts =
        (acc.conflicts || l.any fun line => !decide (line.length < 3) && conflictLineSpec line) := by
  intro l
  induction l with
  | nil => intro acc; simp
  | cons line rest ih =>
    intro acc
    rw [List.foldl_cons, ih, List.any_cons]
    by_cases hlen : line.length < 3
    · simp [statusStep, hlen]
    · simp [statusStep, hlen, conflictLineSpec, Bool.or_assoc]

/-- C5: the probe's `has_conflicts` is true exactly when some parsed status
record has a status column equal to the unmerged code, or both columns
simultaneously added, or both simultaneously deleted; in particular a record
with both columns unmerged satisfies the condition and a record with one
column modified and the other blank does not. -/
theorem status_conflict_characterization (env : GitEnv) (rs : RepositoryStatus)
    (h : get_repository_status env = Except.ok rs) :
    (rs.has_conflicts = true ↔
        ∃ line ∈ statusEntries env.statusCmd.stdout,
          3 ≤ line.length ∧ conflictLineSpec line = true) ∧
      conflictLineSpec (str "UU conflict.txt") = true ∧
      conflictLineSpec (str "M  file.rs") = false := by
  refine ⟨?_, by decide, by decide⟩
  unfold get_repository_status at h
  by_cases hs : env.statusCmd.success
  · rw [if_neg (fun hc => hc (by simp [hs]))] at h
    have hrs := (Except.ok.injEq _ _).mp h
    subst hrs
    simp only [finishStatus, statusFold_conflicts env _ ⟨[], [], [], false⟩, Bool.false_or]
    rw [List.any_eq_true]
    constructor
    · rintro ⟨line, hmem, hline⟩
      refine ⟨line, hmem, ?_, ?_⟩
      · have := (Bool.and_eq_true _ _).mp hline
        have h1 := this.1
        simp at h1
        omega
      · exact ((Bool.and_eq_true _ _).mp hline).2
    · rintro ⟨line, hmem, hlen, hspec⟩
      refine ⟨line, hmem, ?_⟩
      rw [Bool.and_eq_true]
      exact ⟨by simp; omega, hspec⟩
  · rw [if_pos (by simpa using hs)] at h
    simp at h

/-- C5 witness: the probe run on a single both-columns-unmerged record flags a
conflict, and a modified-and-blank record fails the conflict condition. -/
theorem status_conflict_characterization_witness :
    conflictStatusDemo.has_conflicts = true ∧ conflictLineSpec (str "M  file.rs") = false := by
  have h := status_conflict_characterization conflictEnv conflictStatusDemo rfl
  refine ⟨h.1.mpr ?_, h.2.2⟩
  exact ⟨str "UU conflict.txt", by decide, by decide, by decide⟩

/-- C9: for every status environment, the produced `is_clean` flag holds
exactly when the staged, unstaged and untracked lists are all empty. -/
theorem status_is_clean_characterization (env : GitEnv) (rs : RepositoryStatus)
    (h : get_repository_status env = Except.ok rs) :
    rs.is_clean = true ↔
      rs.staged_files = [] ∧ rs.unstaged_files = [] ∧ rs.untracked_files = [] := by
  unfold get_repository_status at h
  by_cases hs : env.statusCmd.success
  · rw [if_neg (fun hc => hc (by simp [hs]))] at h
    have hrs := (Except.ok.injEq _ _).mp h
    subst hrs
    simp [finishStatus, List.isEmpty_iff]
    exact and_assoc
  · rw [if_pos (by simpa using hs)] at h
    simp at h

/-- C9 witness: an empty status output parses to a clean repository status. -/
theorem status_is_clean_characterization_witness :
    (RepositoryStatus.mk [] [] [] true false).is_clean = true := by
  have h := status_is_clean_characterization zeroCommitEnv (RepositoryStatus.mk [] [] [] true false) rfl
  exact h.mpr ⟨rfl, rfl, rfl⟩

/-- C6 counterexample: in the zero-commit environment — where `git status` and
the branch query succeed (the branch query reports a populated name) but
`git log` exits nonzero, as git does in a repository with no commits — the
probe's `gather` returns an error rather than succeeding with an empty commit
list, so the claim as stated is false. -/
theorem git_gather_zero_commits_cex :
    gitGather zeroCommitEnv =
        Except.error
          (str "git log failed: fatal: your current branch does not have any commits yet") ∧
      get_current_branch zeroCommitEnv = Except.ok (str "main") ∧
      zeroCommitEnv.logCmd.success = false := ⟨rfl, rfl, rfl⟩

/-- C6 (amended): in a repository with zero commits `git log` exits nonzero,
so `get_recent_commits` fails and the probe's `gather` propagates that
failure (even when the status and branch queries succeed); an empty
recent-commits list is produced only when `git log` succeeds with empty
output. -/
theorem git_gather_log_failure (env : GitEnv)
    (hs : env.statusCmd.success = true) (hl : env.logCmd.success = false) :
    gitGather env = Except.error (str "git log failed: " ++ env.logCmd.stderr) ∧
      ∀ env2 : GitEnv, env2.logCmd.success = true → env2.logCmd.stdout = [] →
        get_recent_commits env2 10 = Except.ok [] := by
  constructor
  · simp [gitGather, get_repository_status, hs, get_recent_commits, hl]
  · intro env2 h1 h2
    simp only [get_recent_commits, h1, h2]
    rfl

/-- C6 witness: the amended claim applied to the zero-commit environment and,
for the empty-success case, to an environment whose log query succeeds with
empty output. -/
theorem git_gather_log_failure_witness :
    gitGather zeroCommitEnv =
        Except.error (str "git log failed: " ++ zeroCommitEnv.logCmd.stderr) ∧
      get_recent_commits conflictEnv 10 = Except.ok [] := by
  have h := git_gather_log_failure zeroCommitEnv rfl rfl
  exact ⟨h.1, h.2 conflictEnv rfl rfl⟩

/-- `HashMap::insert` leaves lookups at other keys unchanged. -/
theorem lookupAssoc_insertAssoc_ne {β : Type} :
    ∀ (m : List (Str × β)) (k k2 : Str) (v : β), k2 ≠ k →
      lookupAssoc (insertAssoc m k v) k2 = lookupAssoc m k2 := by
  intro m
  induction m with
  | nil => intro k k2 v hne; simp [insertAssoc, lookupAssoc, Ne.symm hne]
  | cons p rest ih =>
    intro k k2 v hne
    obtain ⟨k3, v3⟩ := p
    by_cases h : k3 = k
    · subst h
      simp [insertAssoc, lookupAssoc, Ne.symm hne]
    · simp [insertAssoc, lookupAssoc, h, ih _ _ _ hne]

/-- After `HashMap::insert`, looking the inserted key up yields the inserted
value. -/
theorem lookupAssoc_insertAssoc_same {β : Type} :
    ∀ (m : List (Str × β)) (k : Str) (v : β), lookupAssoc (insertAssoc m k v) k = some v := by
  intro m
  induction m with
  | nil => intro k v; simp [insertAssoc, lookupAssoc]
  | cons p rest ih =>
    intro k v
    obtain ⟨k3, v3⟩ := p
    by_cases h : k3 = k
    · subst h
      simp [insertAssoc, lookupAssoc]
    · simp [insertAssoc, lookupAssoc, h, ih]

/-- A walk entry that either carries a different path or whose content exceeds
the cap never changes what the dependency-files map stores at the given
path. -/
theorem depStep_lookup (patterns : List Str) (m : List (Str × Str)) (x : FsEntry) (k : Str)
    (hx : x.path ≠ k ∨ ∃ c, x.content = some c ∧ 50000 < utf8Len c) :
    lookupAssoc (depFilesStep patterns m x) k = lookupAssoc m k := by
  unfold depFilesStep
  rcases hx with hne | ⟨c2, hc2, hbig⟩
  · rcases hcont : x.content with _ | c
    · simp only [hcont]
      split_ifs <;> rfl
    · simp only [hcont]
      split_ifs <;>
        first
          | rfl
          | exact lookupAssoc_insertAssoc_ne m x.path k c (fun h => hne h.symm)
  · simp only [hc2]
    split_ifs with h1 h2 h3 h4
    · rfl
    · omega
    · rfl
    · rfl
    · rfl

/-- Folding the dependency-files step over entries none of which can store at
the given path leaves the map unchanged there. -/
theorem depFold_lookup (patterns : List Str) (k : Str) :
    ∀ (l : List FsEntry) (m : List (Str × Str)),
      (∀ x ∈ l, x.path ≠ k ∨ ∃ c, x.content = some c ∧ 50000 < utf8Len c) →
      lookupAssoc (l.foldl (depFilesStep patterns) m) k = lookupAssoc m k := by
  intro l
  induction l with
  | nil => intro m _; rfl
  | cons x rest ih =>
    intro m hl
    rw [List.foldl_cons, ih _ (fun y hy => hl y (List.mem_cons_of_mem x hy)),
      depStep_lookup patterns m x k (hl x (List.mem_cons_self x rest))]

/-- The stats fold splits over its accumulator. -/
theorem stats_fold_acc :
    ∀ (l : List FsEntry) (a : Nat × Nat),
      l.foldl statsStep a =
        (a.1 + (l.foldl statsStep (0, 0)).1, a.2 + (l.foldl statsStep (0, 0)).2) := by
  intro l
  induction l with
  | nil => intro a; simp
  | cons x rest ih =>
    intro a
    rw [List.foldl_cons, List.foldl_cons, ih (statsStep a x), ih (statsStep (0, 0) x)]
    unfold statsStep
    split_ifs <;> simp [Prod.ext_iff] <;> omega

/-- C7: a matching dependency-manifest file whose readable content exceeds the
50 KB cap contributes nothing to the dependency-files map — its path is not a
key at all, so it is skipped rather than truncated — while the stats walk
still counts it once and adds its full byte size. -/
theorem dependency_file_cap (fs1 fs2 : List FsEntry) (e : FsEntry) (patterns : List Str)
    (c : Str)
    (hfile : e.isFile = true)
    (hgit : strStartsWith e.path (str "./.git") = false)
    (hmatch : patterns.any (fun pat => matchesPattern e.path e.fileName pat) = true)
    (hcontent : e.content = some c)
    (hbig : 50000 < utf8Len c)
    (hunique : ∀ x ∈ fs1 ++ fs2, x.path ≠ e.path) :
    lookupAssoc (get_dependency_files (fs1 ++ e :: fs2) patterns) e.path = none ∧
      get_repository_stats (fs1 ++ e :: fs2) =
        ((get_repository_stats (fs1 ++ fs2)).1 + 1,
          (get_repository_stats (fs1 ++ fs2)).2 + e.size) := by
  constructor
  · unfold get_dependency_files
    rw [depFold_lookup patterns e.path (fs1 ++ e :: fs2) []]
    · rfl
    · intro x hx
      rcases List.mem_append.mp hx with h | h
      · exact Or.inl (hunique x (List.mem_append_left _ h))
      · rcases List.mem_cons.mp h with rfl | h2
        · exact Or.inr ⟨c, hcontent, hbig⟩
        · exact Or.inl (hunique x (List.mem_append_right _ h2))
  · unfold get_repository_stats
    rw [List.foldl_append, List.foldl_append, List.foldl_cons]
    have hstep : statsStep (fs1.foldl statsStep (0, 0)) e =
        ((fs1.foldl statsStep (0, 0)).1 + 1, (fs1.foldl statsStep (0, 0)).2 + e.size) := by
      unfold statsStep
      rw [if_neg (by simp [hgit]), if_pos (by simp [hfile])]
    rw [hstep, stats_fold_acc fs2 _, stats_fold_acc fs2 (fs1.foldl statsStep (0, 0))]
    simp [Prod.ext_iff]
    omega

/-- The byte length of a run of ASCII characters equals its count. -/
theorem utf8Len_replicate_a (n : Nat) : utf8Len (List.replicate n 'a') = n := by
  have key : ∀ (m a : Nat),
      List.foldl (fun acc c => acc + charUtf8Size c) a (List.replicate m 'a') = a + m := by
    intro m
    induction m with
    | zero => intro a; simp
    | succ k ih =>
      intro a
      rw [List.replicate_succ, List.foldl_cons, ih]
      have h1 : charUtf8Size 'a' = 1 := rfl
      omega
  unfold utf8Len
  rw [key n 0]
  omega

/-- C7 witness: a 50 001-byte manifest matching the allowlist is absent from
the dependency-files map but counted once with its full size by the stats
walk. -/
theorem dependency_file_cap_witness :
    lookupAssoc
        (get_dependency_files
          [⟨str "./Cargo.toml", str "Cargo.toml", true, some (List.replicate 50001 'a'), 50001⟩]
          [str "Cargo.toml"])
        (str "./Cargo.toml") = none ∧
      get_repository_stats
          [⟨str "./Cargo.toml", str "Cargo.toml", true, some (List.replicate 50001 'a'), 50001⟩] =
        (1, 50001) := by
  have h :=
    dependency_file_cap [] []
      ⟨str "./Cargo.toml", str "Cargo.toml", true, some (List.replicate 50001 'a'), 50001⟩
      [str "Cargo.toml"] (List.replicate 50001 'a')
      rfl (by decide) (by decide) rfl
      (by rw [utf8Len_replicate_a]; omega)
      (by simp)
  exact ⟨h.1, h.2⟩

/-- The plain-text rule fold is the filter of the trimmed lines by
non-emptiness and absence of the leading comment marker. -/
theorem textRules_filter (c : Str) :
    textRules c =
      ((rustLines c).map strTrim).filter
        fun t => decide (t ≠ [] ∧ ¬strStartsWith t (str "#")) := by
  unfold textRules
  have key : ∀ (ls : List Str) (acc : List Str),
      ls.foldl
          (fun rules line =>
            let trimmed := strTrim line
            if trimmed ≠ [] ∧ ¬strStartsWith trimmed (str "#") then rules ++ [trimmed]
            else rules)
          acc =
        acc ++ (ls.map strTrim).filter fun t => decide (t ≠ [] ∧ ¬strStartsWith t (str "#")) := by
    intro ls
    induction ls with
    | nil => intro acc; simp
    | cons l rest ih =>
      intro acc
      rw [List.foldl_cons, ih]
      dsimp only
      split_ifs with hif
      · simp [hif]
      · have hcond : (!decide (strTrim l = []) && !strStartsWith (strTrim l) (str "#")) = false := by
          rcases not_and_or.mp hif with h | h
          · simp at h
            simp [h]
          · simp at h
            simp [h]
        simp [List.filter_cons, hcond]
  exact key _ []

/-- C8: for a plain-text tool-config file, the extracted rules are exactly the
trimmed lines that are non-empty and do not start with the comment marker;
in particular a five-line file with two comment lines and one blank line
yields exactly two rules. -/
theorem text_rules_exact (parseJson parseYaml : Str → Option JValue) (f : AgentConfigFile)
    (hf : f.format = ConfigFormat.Text) :
    fileRules parseJson parseYaml f =
        ((rustLines f.content).map strTrim).filter
          (fun t => decide (t ≠ [] ∧ ¬strStartsWith t (str "#"))) ∧
      (extract_rules parseJson parseYaml
            [⟨str ".cursorrules",
              str "# first comment\nuse tabs\n\n# second comment\nprefer rebase",
              ConfigFormat.Text⟩]).length = 2 := by
  constructor
  · unfold fileRules
    rw [hf]
    exact textRules_filter f.content
  · rfl

/-- C8 witness: the characterization applied to a concrete plain-text file. -/
theorem text_rules_exact_witness :
    fileRules (fun _ => none) (fun _ => none)
        ⟨str ".cursorrules",
          str "# first comment\nuse tabs\n\n# second comment\nprefer rebase",
          ConfigFormat.Text⟩ =
      [str "use tabs", str "prefer rebase"] := by
  have h :=
    text_rules_exact (fun _ => none) (fun _ => none)
      ⟨str ".cursorrules",
        str "# first comment\nuse tabs\n\n# second comment\nprefer rebase",
        ConfigFormat.Text⟩ rfl
  rw [h.1]
  decide

/-- Checking a list of paths each of which exists and whose stored hash equals
the digest of its current contents reports no change. -/
theorem files_changed_all_match (env : HashEnv) (M : List (Str × Str)) :
    ∀ q : List Str,
      (∀ p ∈ q, ∃ c, env.contents p = some c ∧ lookupAssoc M p = some (env.digest c)) →
      files_changed env M q = false := by
  intro q
  induction q with
  | nil => intro _; rfl
  | cons p rest ih =>
    intro hq
    obtain ⟨c, hc, hl⟩ := hq p (List.mem_cons_self p rest)
    simp only [files_changed, hc, hl]
    simp [ih fun p2 hp2 => hq p2 (List.mem_cons_of_mem p hp2)]

/-- Folding hash updates over paths that do not mention a key leaves the store
unchanged at that key. -/
theorem update_fold_not_mem (env : HashEnv) :
    ∀ (paths : List Str) (hs : List (Str × Str)) (p : Str), p ∉ paths →
      lookupAssoc
          (paths.foldl
            (fun hs2 q =>
              match env.contents q with
              | some c => insertAssoc hs2 q (env.digest c)
              | none => hs2)
            hs) p =
        lookupAssoc hs p := by
  intro paths
  induction paths with
  | nil => intro hs p _; rfl
  | cons q rest ih =>
    intro hs p hnm
    have hq : p ≠ q := fun h => hnm (h ▸ List.mem_cons_self q rest)
    have hrest : p ∉ rest := fun h => hnm (List.mem_cons_of_mem q h)
    rw [List.foldl_cons, ih _ p hrest]
    cases hcq : env.contents q with
    | none => rfl
    | some c => simp only [lookupAssoc_insertAssoc_ne _ _ _ _ hq]

/-- After the hash-update fold, an existing path that was among the updated
ones stores the digest of its current contents. -/
theorem update_fold_lookup (env : HashEnv) :
    ∀ (paths : List Str) (hs : List (Str × Str)) (p : Str) (c : Str),
      env.contents p = some c → p ∈ paths →
      lookupAssoc
          (paths.foldl
            (fun hs2 q =>
              match env.contents q with
              | some c2 => insertAssoc hs2 q (env.digest c2)
              | none => hs2)
            hs) p =
        some (env.digest c) := by
  intro paths
  induction paths with
  | nil => intro hs p c _ hmem; simp at hmem
  | cons q rest ih =>
    intro hs p c hc hmem
    by_cases hrest : p ∈ rest
    · rw [List.foldl_cons]
      exact ih _ p c hc hrest
    · have hpq : p = q := by
        rcases List.mem_cons.mp hmem with h | h
        · exact h
        · exact absurd h hrest
      subst hpq
      rw [List.foldl_cons, update_fold_not_mem env rest _ p hrest, hc]
      exact lookupAssoc_insertAssoc_same _ p (env.digest c)

/-- A path present in the checked list that names an existing file but is
absent from the stored hash map makes the check report a change. -/
theorem files_changed_untracked (env : HashEnv) (stored : List (Str × Str)) (p : Str) (c : Str)
    (hc : env.contents p = some c) (hlook : lookupAssoc stored p = none) :
    ∀ paths : List Str, p ∈ paths → files_changed env stored paths = true := by
  intro paths
  induction paths with
  | nil => intro hmem; simp at hmem
  | cons q rest ih =>
    intro hmem
    rcases List.mem_cons.mp hmem with rfl | hmem2
    · simp [files_changed, hc, hlook]
    · cases hcq : env.contents q with
      | none =>
        simp only [files_changed, hcq]
        split_ifs with h
        · rfl
        · exact ih hmem2
      | some c2 =>
        cases hl2 : lookupAssoc stored q with
        | none => simp [files_changed, hcq, hl2]
        | some sh =>
          simp only [files_changed, hcq, hl2]
          split_ifs with h
          · rfl
          · exact ih hmem2

/-- C10: immediately after `update_file_hashes` over paths to existing files,
and with contents unchanged, `files_changed` over the same paths reports
false; and `files_changed` reports true whenever some checked path names an
existing file absent from the stored hash map. -/
theorem file_hash_roundtrip :
    (∀ (env : HashEnv) (m : FileHashMap) (paths : List Str),
        (∀ p ∈ paths, (env.contents p).isSome) →
        files_changed env (update_file_hashes env m paths).hashes paths = false) ∧
      ∀ (env : HashEnv) (stored : List (Str × Str)) (paths : List Str) (p : Str),
        p ∈ paths → (env.contents p).isSome → lookupAssoc stored p = none →
        files_changed env stored paths = true := by
  constructor
  · intro env m paths hex
    refine files_changed_all_match env _ paths fun p hp => ?_
    obtain ⟨c, hc⟩ := Option.isSome_iff_exists.mp (hex p hp)
    refine ⟨c, hc, ?_⟩
    simp only [update_file_hashes]
    exact update_fold_lookup env paths m.hashes p c hc hp
  · intro env stored paths p hmem hex hlook
    obtain ⟨c, hc⟩ := Option.isSome_iff_exists.mp hex
    exact files_changed_untracked env stored p c hc hlook paths hmem

/-- C10 witness: the round trip applied to a one-file store with concrete
contents and digest function. -/
theorem file_hash_roundtrip_witness :
    files_changed ⟨fun p => if p = str "a.txt" then some (str "hello") else none,
        fun c => c ++ str "!", 7⟩
        (update_file_hashes
          ⟨fun p => if p = str "a.txt" then some (str "hello") else none,
            fun c => c ++ str "!", 7⟩
          ⟨[], 0⟩ [str "a.txt"]).hashes
        [str "a.txt"] = false ∧
      files_changed ⟨fun p => if p = str "a.txt" then some (str "hello") else none,
          fun c => c ++ str "!", 7⟩
        [] [str "a.txt"] = true := by
  constructor
  · exact file_hash_roundtrip.1
      ⟨fun p => if p = str "a.txt" then some (str "hello") else none, fun c => c ++ str "!", 7⟩
      ⟨[], 0⟩ [str "a.txt"] (by decide)
  · exact file_hash_roundtrip.2
      ⟨fun p => if p = str "a.txt" then some (str "hello") else none, fun c => c ++ str "!", 7⟩
      [] [str "a.txt"] (str "a.txt") (by decide) (by decide) rfl

end GitAI
